import Mathlib

open scoped Matrix

/-
  Shallow embedding of the RAVE export script (export_rave.py).

  The script packages a trained RAVE autoencoder into a deployable
  TorchScript artifact.  The parts embedded here are the latent size
  selection, the variational and discrete latent pre/post processing,
  the mono/stereo decode wrapper, the metadata buffers and the
  straight-line export pipeline.  Tensors are modelled over ℚ (exact
  arithmetic standing for the float computation), randomness is made
  explicit by passing realizations of the random draws as arguments,
  and external collaborators (encoder reparametrization, decoder,
  filter bank, noise generator) are modelled as abstract function
  parameters, per the specification.
-/

/-! ## Latent size selection (export_rave.py, lines 41-45)

`latent_size = max(np.argmax(fidelity > FIDELITY), 1)`
`latent_size = 2**math.ceil(math.log2(latent_size))` -/

/-- Embedding of `np.argmax(F > t)` on a 1-d array: index of the first
entry strictly greater than `t`, and 0 when no entry qualifies
(numpy argmax over an all-false boolean mask returns 0). -/
def np_argmax_gt (F : List ℚ) (t : ℚ) : ℕ :=
  let i := F.findIdx (fun x => decide (t < x))
  if i = F.length then 0 else i

/-- Structural (fuel-driven) computation of `ceil (log2 n)`:
for `n ≥ 2`, `ceilLog2 n = ceilLog2 ⌈n/2⌉ + 1`, and 0 for `n ≤ 1`. -/
def ceilLog2Fuel : ℕ → ℕ → ℕ
  | 0, _ => 0
  | fuel + 1, n => if n ≤ 1 then 0 else ceilLog2Fuel fuel ((n + 1) / 2) + 1

/-- Embedding of `math.ceil(math.log2 n)` for natural `n` (exact). -/
def ceilLog2 (n : ℕ) : ℕ := ceilLog2Fuel n n

/-- Embedding of the variational latent size selection of
`ScriptedRAVE.__init__`: first index of the fidelity curve strictly
exceeding the threshold (0 when none does), floored to at least 1,
then rounded up to the next power of two. The spec calls this
`selectSize (Variational)`. -/
def selectSize (F : List ℚ) (t : ℚ) : ℕ :=
  2 ^ ceilLog2 (max (np_argmax_gt F t) 1)

/-- Embedding of the discrete latent size selection
(`self.latent_size = pretrained.encoder.num_quantizers`, line 48). -/
def discrete_latent_size (num_quantizers : ℕ) : ℕ := num_quantizers

/-- The next power of two of `n`: smallest power of two that is `≥ n`
(equals 1 for `n ≤ 1`); this is the bound the spec calls `nextPow2`. -/
def nextPow2 (n : ℕ) : ℕ := 2 ^ ceilLog2 n

/-! ### Helper lemmas about the size selection -/

lemma ceilLog2Fuel_eq_clog (fuel : ℕ) : ∀ n : ℕ, n ≤ fuel →
    ceilLog2Fuel fuel n = Nat.clog 2 n := by
  induction fuel with
  | zero =>
    intro n hn
    interval_cases n
    simp [ceilLog2Fuel]
  | succ fuel ih =>
    intro n hn
    by_cases h1 : n ≤ 1
    · interval_cases n <;> simp [ceilLog2Fuel, Nat.clog_one_right]
    · have h2 : 2 ≤ n := by omega
      have hdiv : (n + 1) / 2 ≤ fuel := by omega
      have : ceilLog2Fuel (fuel + 1) n = ceilLog2Fuel fuel ((n + 1) / 2) + 1 := by
        simp [ceilLog2Fuel, h1]
      rw [this, ih _ hdiv, Nat.clog_of_two_le (by norm_num) h2]
      norm_num

lemma ceilLog2_eq_clog (n : ℕ) : ceilLog2 n = Nat.clog 2 n :=
  ceilLog2Fuel_eq_clog n n le_rfl

lemma ceilLog2_mono {n m : ℕ} (h : n ≤ m) : ceilLog2 n ≤ ceilLog2 m := by
  rw [ceilLog2_eq_clog, ceilLog2_eq_clog]
  exact Nat.clog_mono_right 2 h

lemma np_argmax_gt_cases (F : List ℚ) (t : ℚ) :
    np_argmax_gt F t = 0 ∨ np_argmax_gt F t < F.length := by
  unfold np_argmax_gt
  by_cases h : F.findIdx (fun x => decide (t < x)) = F.length
  · simp [h]
  · right
    simpa [h] using lt_of_le_of_ne (List.findIdx_le_length _) h

lemma selectSize_pos (F : List ℚ) (t : ℚ) : 1 ≤ selectSize F t :=
  Nat.one_le_two_pow

lemma selectSize_le_nextPow2 (F : List ℚ) (t : ℚ) :
    selectSize F t ≤ nextPow2 F.length := by
  unfold selectSize nextPow2
  apply Nat.pow_le_pow_right (by norm_num)
  rcases np_argmax_gt_cases F t with h | h
  · rw [h]
    calc ceilLog2 (max 0 1) = 0 := by simp [ceilLog2, ceilLog2Fuel]
    _ ≤ ceilLog2 F.length := Nat.zero_le _
  · exact ceilLog2_mono (by omega)

lemma np_argmax_gt_of_exists (F : List ℚ) (t : ℚ) (hex : ∃ x ∈ F, t < x) :
    np_argmax_gt F t = F.findIdx (fun x => decide (t < x)) := by
  have hlt : F.findIdx (fun x => decide (t < x)) < F.length :=
    List.findIdx_lt_length_of_exists (by
      obtain ⟨x, hx, hxt⟩ := hex
      exact ⟨x, hx, by simpa using hxt⟩)
  unfold np_argmax_gt
  simp [Nat.ne_of_lt hlt]

lemma selectSize_mono (F : List ℚ) (t1 t2 : ℚ) (h12 : t1 ≤ t2)
    (hex : ∃ x ∈ F, t2 < x) : selectSize F t1 ≤ selectSize F t2 := by
  have hex1 : ∃ x ∈ F, t1 < x := by
    obtain ⟨x, hx, hxt⟩ := hex
    exact ⟨x, hx, lt_of_le_of_lt h12 hxt⟩
  unfold selectSize
  apply Nat.pow_le_pow_right (by norm_num)
  apply ceilLog2_mono
  apply max_le_max _ le_rfl
  rw [np_argmax_gt_of_exists F t1 hex1, np_argmax_gt_of_exists F t2 hex]
  apply List.findIdx_le_findIdx
  intro x _ hx
  simp only [decide_eq_true_eq] at hx ⊢
  exact lt_of_le_of_lt h12 hx

/-! ### Claims C1, C2, C3 -/

/-- Claim C1 counterexample: with threshold 0.95 and fidelity curve
[0.5, 0.8, 0.96, 0.99], the selected latent size is not 4.  The first
index whose fidelity exceeds 0.95 is 2, and 2 rounded up to the next
power of two is already 2, not 4. -/
theorem c1_counterexample :
    selectSize [1/2, 4/5, 24/25, 99/100] (19/20) ≠ 4 := by
  norm_num [selectSize, np_argmax_gt, List.findIdx, List.findIdx.go,
    ceilLog2, ceilLog2Fuel]

/-- Claim C1 (amended): for the variational size selection with
threshold 0.95 and fidelity curve [0.5, 0.8, 0.96, 0.99], the selected
latent size D_kept equals 2 (first exceeding index 2, floored to at
least 1, rounded up to the next power of two, which is 2 itself). -/
theorem c1_amended :
    selectSize [1/2, 4/5, 24/25, 99/100] (19/20) = 2 := by
  norm_num [selectSize, np_argmax_gt, List.findIdx, List.findIdx.go,
    ceilLog2, ceilLog2Fuel]

/-- Claim C2 counterexample: for the fidelity curve
[0, 0, 0, 0, 0, 1] of length 6 and threshold 1/2 (which lies in [0,1]),
the variational D_kept is 8, violating D_kept ≤ D_full = 6: the first
exceeding index is 5 and the power-of-two round-up yields 8. -/
theorem c2_counterexample :
    ((0:ℚ) ≤ 1/2 ∧ (1:ℚ)/2 ≤ 1) ∧
    ¬ (1 ≤ selectSize [0, 0, 0, 0, 0, 1] (1/2) ∧
       selectSize [0, 0, 0, 0, 0, 1] (1/2) ≤
         ([0, 0, 0, 0, 0, 1] : List ℚ).length) := by
  norm_num [selectSize, np_argmax_gt, List.findIdx, List.findIdx.go,
    ceilLog2, ceilLog2Fuel]

/-- Claim C2 (amended): for every fidelity curve and every threshold,
the variational D_kept satisfies 1 ≤ D_kept ≤ nextPow2 D_full (the
power-of-two round-up can exceed a D_full that is not itself a power
of two, but never exceeds the next power of two of D_full); and in the
discrete case D_kept equals the number of residual-quantization stages
of the trained encoder. -/
theorem c2_amended (F : List ℚ) (t : ℚ) :
    (1 ≤ selectSize F t ∧ selectSize F t ≤ nextPow2 F.length) ∧
    (∀ q : ℕ, discrete_latent_size q = q) :=
  ⟨⟨selectSize_pos F t, selectSize_le_nextPow2 F t⟩, fun _ => rfl⟩

/-- Claim C3 counterexample: for the monotone fidelity curve
[0.5, 0.8, 0.96, 0.99] and the thresholds 0.9 ≤ 1 (both in [0,1]), the
selected size decreases from 2 to 1: no fidelity value exceeds 1, so
the argmax over the all-false mask falls back to index 0, hence the
selection is not monotone as a function of the threshold. -/
theorem c3_counterexample :
    List.Chain' (fun a b => a ≤ b) ([1/2, 4/5, 24/25, 99/100] : List ℚ) ∧
    ((0:ℚ) ≤ 9/10 ∧ (9:ℚ)/10 ≤ 1) ∧ ((0:ℚ) ≤ 1 ∧ (1:ℚ) ≤ 1) ∧
    (9:ℚ)/10 ≤ 1 ∧
    ¬ (selectSize [1/2, 4/5, 24/25, 99/100] (9/10) ≤
       selectSize [1/2, 4/5, 24/25, 99/100] 1) := by
  norm_num [selectSize, np_argmax_gt, List.findIdx, List.findIdx.go,
    ceilLog2, ceilLog2Fuel]

/-- Claim C3 (amended): for thresholds t1 ≤ t2 in [0,1] and a
monotonically non-decreasing fidelity curve F of length D, the
variational size selection returns a power of two lying in
[1, nextPow2 D]; and it is non-decreasing from t1 to t2 provided some
fidelity value still exceeds the larger threshold t2 (when no value
exceeds the threshold, the argmax falls back to index 0 and the
selection drops to 1, so monotonicity can fail there). -/
theorem c3_amended (F : List ℚ) (t1 t2 : ℚ)
    (hmono : List.Chain' (fun a b => a ≤ b) F)
    (ht1 : 0 ≤ t1 ∧ t1 ≤ 1) (ht2 : 0 ≤ t2 ∧ t2 ≤ 1) (h12 : t1 ≤ t2)
    (hex : ∃ x ∈ F, t2 < x) :
    (∃ j, selectSize F t1 = 2 ^ j) ∧
    1 ≤ selectSize F t1 ∧ selectSize F t1 ≤ nextPow2 F.length ∧
    selectSize F t1 ≤ selectSize F t2 :=
  ⟨⟨ceilLog2 (max (np_argmax_gt F t1) 1), rfl⟩,
    selectSize_pos F t1, selectSize_le_nextPow2 F t1,
    selectSize_mono F t1 t2 h12 hex⟩

/-- Claim C3 witness: the amended claim instantiated at the curve
[0.5, 0.8, 0.96, 0.99] with thresholds 0.5 and 0.9. -/
theorem c3_witness :
    (∃ j, selectSize [1/2, 4/5, 24/25, 99/100] (1/2) = 2 ^ j) ∧
    1 ≤ selectSize [1/2, 4/5, 24/25, 99/100] (1/2) ∧
    selectSize [1/2, 4/5, 24/25, 99/100] (1/2) ≤
      nextPow2 ([1/2, 4/5, 24/25, 99/100] : List ℚ).length ∧
    selectSize [1/2, 4/5, 24/25, 99/100] (1/2) ≤
      selectSize [1/2, 4/5, 24/25, 99/100] (9/10) :=
  c3_amended [1/2, 4/5, 24/25, 99/100] (1/2) (9/10)
    (by norm_num) (by norm_num) (by norm_num) (by norm_num)
    ⟨24/25, by norm_num, by norm_num⟩

/-! ## Variational latent transforms (export_rave.py, lines 102-119)

Tensors of one batch element are matrices channels × frames over ℚ.
`F.conv1d(z, W.unsqueeze(-1))` is a 1-tap convolution, i.e. the matrix
product `W * z` along the channel axis. -/

/-- A latent tensor with C channels and T time frames, over ℚ. -/
abbrev Latent (C T : ℕ) : Type := Matrix (Fin C) (Fin T) ℚ

/-- Embedding of `z - self.latent_mean.unsqueeze(-1)`. -/
def subMean {D T : ℕ} (mean : Fin D → ℚ) (z : Latent D T) : Latent D T :=
  Matrix.of fun i t => z i t - mean i

/-- Embedding of `z + self.latent_mean.unsqueeze(-1)`. -/
def addMean {D T : ℕ} (mean : Fin D → ℚ) (z : Latent D T) : Latent D T :=
  Matrix.of fun i t => z i t + mean i

/-- Embedding of the channel truncation `z[:, :self.latent_size]`. -/
def truncChannels {D T : ℕ} {k : ℕ} (hk : k ≤ D) (z : Latent D T) :
    Latent k T :=
  Matrix.of fun i t => z (Fin.castLE hk i) t

/-- Embedding of `torch.cat([z, noise], 1)`: the kept channels followed
by the noise channels, recovering the full channel count. -/
def catChannels {D T k : ℕ} (hk : k ≤ D) (z : Latent k T)
    (noise : Latent (D - k) T) : Latent D T :=
  Matrix.of fun i t =>
    if h : (i : ℕ) < k then z ⟨i, h⟩ t
    else noise ⟨(i : ℕ) - k, by have := i.isLt; omega⟩ t

/-- Embedding of `VariationalScriptedRAVE.post_process_latent`:
reparametrize (the deterministic representative of the encoder
distribution, an abstract external collaborator passed as `reparam`),
subtract the mean, apply the PCA projection as a 1-tap convolution,
and truncate to the first `k = latent_size` channels. -/
def post_process_latent {D T k : ℕ} (P : Matrix (Fin D) (Fin D) ℚ)
    (mean : Fin D → ℚ) (reparam : Latent D T → Latent D T) (hk : k ≤ D)
    (z : Latent D T) : Latent k T :=
  truncChannels hk (P * subMean mean (reparam z))

/-- Embedding of `VariationalScriptedRAVE.pre_process_latent` for one
batch element: append the `D - k` noise channels (the realization of
`torch.randn` is passed explicitly as `noise`), apply the transposed
PCA projection, and add the mean back. -/
def pre_process_latent {D T k : ℕ} (P : Matrix (Fin D) (Fin D) ℚ)
    (mean : Fin D → ℚ) (hk : k ≤ D) (z : Latent k T)
    (noise : Latent (D - k) T) : Latent D T :=
  addMean mean (Pᵀ * catChannels hk z noise)

/-! ### Helper lemmas for the variational transforms -/

lemma catChannels_truncChannels {D T : ℕ} (M : Latent D T)
    (noise : Latent (D - D) T) :
    catChannels (le_refl D) (truncChannels (le_refl D) M) noise = M := by
  funext i t
  simp [catChannels, truncChannels, i.isLt, Fin.castLE, Fin.eta]

lemma addMean_inj {D T : ℕ} (mean : Fin D → ℚ) (A B : Latent D T)
    (h : addMean mean A = addMean mean B) : A = B := by
  funext i t
  have h2 := congrFun (congrFun h i) t
  simp only [addMean, Matrix.of_apply] at h2
  exact add_right_cancel h2

/-! ### Claims C6 and C10 -/

/-- Claim C6: for the variational strategy with D_kept = D_full (so
truncation keeps all channels and the noise padding has zero
channels), pre_process_latent after post_process_latent reconstructs
the deterministic latent sample (the reparametrized encoder output)
exactly, given that the PCA projection matrix is orthonormal. -/
theorem c6_roundtrip {D T : ℕ} (P : Matrix (Fin D) (Fin D) ℚ)
    (mean : Fin D → ℚ) (reparam : Latent D T → Latent D T)
    (hP : Pᵀ * P = 1) (z : Latent D T) (noise : Latent (D - D) T) :
    pre_process_latent P mean (le_refl D)
      (post_process_latent P mean reparam (le_refl D) z) noise =
    reparam z := by
  unfold pre_process_latent post_process_latent
  rw [catChannels_truncChannels, ← Matrix.mul_assoc, hP, Matrix.one_mul]
  funext i t
  simp [addMean, subMean]

/-- Claim C6 witness: the round trip instantiated with the 1×1 identity
projection, mean 2, identity reparametrization and the constant
latent 3. -/
theorem c6_witness :
    ((1 : Matrix (Fin 1) (Fin 1) ℚ)ᵀ * 1 = 1) ∧
    pre_process_latent (1 : Matrix (Fin 1) (Fin 1) ℚ) (fun _ => 2)
      (le_refl 1)
      (post_process_latent (1 : Matrix (Fin 1) (Fin 1) ℚ) (fun _ => 2) id
        (le_refl 1) ((Matrix.of fun _ _ => (3 : ℚ)) : Latent 1 1))
      ((Matrix.of fun _ _ => (0 : ℚ)) : Latent (1 - 1) 1) =
    id ((Matrix.of fun _ _ => (3 : ℚ)) : Latent 1 1) :=
  ⟨by simp, c6_roundtrip 1 (fun _ => 2) id (by simp)
    ((Matrix.of fun _ _ => (3 : ℚ)) : Latent 1 1)
    ((Matrix.of fun _ _ => (0 : ℚ)) : Latent (1 - 1) 1)⟩

/-- Claim C10: for the variational strategy, pre_process_latent is
independent of the noise realization exactly when D_kept = D_full.
When D_kept = D_full it returns the same output for every noise draw;
when D_kept < D_full (and the projection is orthonormal, with at least
one time frame) there are noise draws producing different outputs on
the same input latent, so two invocations may differ. -/
theorem c10_noise_determinism {D T k : ℕ} (P : Matrix (Fin D) (Fin D) ℚ)
    (mean : Fin D → ℚ) (hP : Pᵀ * P = 1) (hk : k ≤ D) (hT : 0 < T) :
    (k = D → ∀ (z : Latent k T) (n1 n2 : Latent (D - k) T),
      pre_process_latent P mean hk z n1 = pre_process_latent P mean hk z n2) ∧
    (k < D → ∃ (z : Latent k T) (n1 n2 : Latent (D - k) T),
      pre_process_latent P mean hk z n1 ≠ pre_process_latent P mean hk z n2) := by
  constructor
  · intro hkD z n1 n2
    have hn : n1 = n2 := by
      funext i t
      exact absurd i.isLt (by omega)
    rw [hn]
  · intro hkD
    refine ⟨0, 0, Matrix.of fun _ _ => 1, fun hEq => ?_⟩
    have hPPt : P * Pᵀ = 1 := Matrix.mul_eq_one_comm.mp hP
    unfold pre_process_latent at hEq
    have h1 := addMean_inj mean _ _ hEq
    have h2 : catChannels hk (0 : Latent k T) 0 =
        catChannels hk (0 : Latent k T) (Matrix.of fun _ _ => 1) := by
      calc catChannels hk (0 : Latent k T) 0
          = (P * Pᵀ) * catChannels hk (0 : Latent k T) 0 := by
            rw [hPPt, Matrix.one_mul]
        _ = P * (Pᵀ * catChannels hk (0 : Latent k T) 0) := by
            rw [Matrix.mul_assoc]
        _ = P * (Pᵀ * catChannels hk (0 : Latent k T)
              (Matrix.of fun _ _ => 1)) := by rw [h1]
        _ = (P * Pᵀ) * catChannels hk (0 : Latent k T)
              (Matrix.of fun _ _ => 1) := by rw [Matrix.mul_assoc]
        _ = catChannels hk (0 : Latent k T) (Matrix.of fun _ _ => 1) := by
            rw [hPPt, Matrix.one_mul]
    have h3 := congrFun (congrFun h2 ⟨k, hkD⟩) ⟨0, hT⟩
    simp [catChannels] at h3

/-- Claim C10 witness: with the 2×2 identity projection, one kept
channel out of two, there are two noise draws with different
pre_process_latent outputs on the zero latent. -/
theorem c10_witness :
    ((1 : Matrix (Fin 2) (Fin 2) ℚ)ᵀ * 1 = 1) ∧ (1 : ℕ) < 2 ∧
    (∃ (z : Latent 1 1) (n1 n2 : Latent (2 - 1) 1),
      pre_process_latent (1 : Matrix (Fin 2) (Fin 2) ℚ) (fun _ => 0)
          (by omega) z n1 ≠
        pre_process_latent (1 : Matrix (Fin 2) (Fin 2) ℚ) (fun _ => 0)
          (by omega) z n2) :=
  ⟨by simp, by omega,
    (c10_noise_determinism (T := 1) (1 : Matrix (Fin 2) (Fin 2) ℚ)
      (fun _ => 0) (by simp) (by omega) (by omega)).2 (by omega)⟩

/-! ## Mono/stereo decode wrapper (export_rave.py, lines 85-96)

`decode` on one input latent (batch size 1): in stereo mode the latent
is duplicated along the batch axis, each batch element is
pre-processed (each receiving its own slice of the `torch.randn` draw,
passed here as `n0` and `n1`), sent through the decoder and the
inverse pqmf (the abstract single-channel synthesis chain `synth`,
applied to batch elements independently), and the two batch results
are recombined as the two output channels. -/

/-- Embedding of `ScriptedRAVE.decode` with `stereo = True` on a
single input latent: channel `c` of the output is the synthesis of the
pre-processed latent with the noise drawn for batch element `c`. -/
def decode_stereo {D T k : ℕ} (P : Matrix (Fin D) (Fin D) ℚ)
    (mean : Fin D → ℚ) (synth : Latent D T → List ℚ) (hk : k ≤ D)
    (z : Latent k T) (n0 n1 : Latent (D - k) T) : List (List ℚ) :=
  [synth (pre_process_latent P mean hk z n0),
   synth (pre_process_latent P mean hk z n1)]

/-- Embedding of `ScriptedRAVE.decode` with `stereo = False` on a
single input latent: one output channel. -/
def decode_mono {D T k : ℕ} (P : Matrix (Fin D) (Fin D) ℚ)
    (mean : Fin D → ℚ) (synth : Latent D T → List ℚ) (hk : k ≤ D)
    (z : Latent k T) (n0 : Latent (D - k) T) : List (List ℚ) :=
  [synth (pre_process_latent P mean hk z n0)]

/-! ### Concrete instance for the stereo / determinism counterexamples -/

/-- Concrete PCA projection (the 2×2 identity) for the counterexamples. -/
def cexP : Matrix (Fin 2) (Fin 2) ℚ := 1

/-- Concrete latent mean (zero) for the counterexamples. -/
def cexMean : Fin 2 → ℚ := fun _ => 0

/-- Concrete synthesis chain (decoder followed by the inverse pqmf,
both abstract collaborators): flattens the two latent channels of the
single frame into a two-sample channel. -/
def cexSynth : Latent 2 1 → List ℚ := fun m => [m 0 0, m 1 0]

/-- Concrete one-channel input latent (zero). -/
def cexZ : Latent 1 1 := Matrix.of fun _ _ => 0

/-- Concrete noise realization for the first batch element. -/
def cexN0 : Latent (2 - 1) 1 := Matrix.of fun _ _ => 0

/-- Concrete noise realization for the second batch element. -/
def cexN1 : Latent (2 - 1) 1 := Matrix.of fun _ _ => 1

/-! ### Claims C4 and C5 -/

/-- Claim C4 counterexample: with the identity projection, zero mean,
one kept channel out of two and noise draws 0 and 1 for the two batch
elements, the two channels of the stereo decode differ: the latent is
duplicated, but each copy is completed with its own fresh noise before
synthesis, so the channels are not bit-identical. -/
theorem c4_counterexample :
    (decode_stereo cexP cexMean cexSynth (by omega) cexZ cexN0 cexN1).get? 0 ≠
    (decode_stereo cexP cexMean cexSynth (by omega) cexZ cexN0 cexN1).get? 1 := by
  simp [decode_stereo, pre_process_latent, addMean, catChannels,
    cexP, cexMean, cexSynth, cexZ, cexN0, cexN1]

/-- Claim C4 (amended): when the stereo flag is set, decode produces
exactly two channels, each with the per-channel sample count of the
mono decode of the same latent (the synthesis chain maps equal-shape
inputs to equal-length outputs); the two channels are the syntheses of
the same truncated latent completed with the two per-batch noise
draws, hence they are bit-identical whenever the two draws coincide —
in particular whenever D_kept = D_full, where the noise is empty — but
not in general. -/
theorem c4_amended {D T k : ℕ} (P : Matrix (Fin D) (Fin D) ℚ)
    (mean : Fin D → ℚ) (synth : Latent D T → List ℚ) (hk : k ≤ D)
    (hlen : ∀ a b : Latent D T, (synth a).length = (synth b).length)
    (z : Latent k T) (n0 n1 : Latent (D - k) T) :
    (decode_stereo P mean synth hk z n0 n1).length = 2 ∧
    (∀ c1 ∈ decode_stereo P mean synth hk z n0 n1,
      ∀ c2 ∈ decode_mono P mean synth hk z n0, c1.length = c2.length) ∧
    (n0 = n1 → ∃ c, decode_stereo P mean synth hk z n0 n1 = [c, c]) := by
  refine ⟨rfl, ?_, ?_⟩
  · intro c1 h1 c2 h2
    simp only [decode_stereo, List.mem_cons, List.not_mem_nil, or_false] at h1
    simp only [decode_mono, List.mem_cons, List.not_mem_nil, or_false] at h2
    subst h2
    rcases h1 with h1 | h1 <;> subst h1 <;> exact hlen _ _
  · intro h
    subst h
    exact ⟨_, rfl⟩

/-- Claim C4 witness: the amended claim instantiated at the concrete
model, with the same noise realization for both batch elements. -/
theorem c4_witness :
    (decode_stereo cexP cexMean cexSynth (by omega) cexZ cexN0 cexN0).length = 2 ∧
    (∀ c1 ∈ decode_stereo cexP cexMean cexSynth (by omega) cexZ cexN0 cexN0,
      ∀ c2 ∈ decode_mono cexP cexMean cexSynth (by omega) cexZ cexN0,
        c1.length = c2.length) ∧
    (cexN0 = cexN0 → ∃ c,
      decode_stereo cexP cexMean cexSynth (by omega) cexZ cexN0 cexN0 = [c, c]) :=
  c4_amended cexP cexMean cexSynth (by omega) (fun _ _ => rfl) cexZ cexN0 cexN0

/-- Claim C5 counterexample: the packaged decode function is not
deterministic on the same probe input: at the concrete variational
model with one kept channel out of two, two invocations of the mono
decode with different realizations of the per-invocation noise draw
return different outputs. -/
theorem c5_counterexample :
    decode_mono cexP cexMean cexSynth (by omega) cexZ cexN0 ≠
    decode_mono cexP cexMean cexSynth (by omega) cexZ cexN1 := by
  simp [decode_mono, pre_process_latent, addMean, catChannels,
    cexP, cexMean, cexSynth, cexZ, cexN0, cexN1]

/-- Claim C5 (amended): the export is deterministic except for the
per-invocation noise draw of the variational decode: the metadata
vectors are pure functions of the configuration (identical across two
runs), encode draws no randomness, and when D_kept = D_full the decode
output is independent of the noise realization, hence numerically
identical across runs on the same probe input. -/
theorem c5_amended {D T k : ℕ} (P : Matrix (Fin D) (Fin D) ℚ)
    (mean : Fin D → ℚ) (synth : Latent D T → List ℚ) (hk : k ≤ D)
    (hkD : k = D) (z : Latent k T) (n1 n2 : Latent (D - k) T) :
    decode_mono P mean synth hk z n1 = decode_mono P mean synth hk z n2 := by
  have hn : n1 = n2 := by
    funext i t
    exact absurd i.isLt (by omega)
  rw [hn]

/-- Concrete synthesis chain on one latent channel, for the claim C5
witness. -/
def cexSynth1 : Latent 1 1 → List ℚ := fun m => [m 0 0]

/-- Claim C5 witness: with D_kept = D_full = 1, the mono decode gives
the same output under two (vacuous but syntactically different) noise
realizations. -/
theorem c5_witness :
    decode_mono (1 : Matrix (Fin 1) (Fin 1) ℚ) (fun _ => 0) cexSynth1
      (le_refl 1) cexZ ((Matrix.of fun _ _ => (0 : ℚ)) : Latent (1 - 1) 1) =
    decode_mono (1 : Matrix (Fin 1) (Fin 1) ℚ) (fun _ => 0) cexSynth1
      (le_refl 1) cexZ ((Matrix.of fun _ _ => (5 : ℚ)) : Latent (1 - 1) 1) :=
  c5_amended 1 (fun _ => 0) cexSynth1 (le_refl 1) rfl cexZ
    ((Matrix.of fun _ _ => (0 : ℚ)) : Latent (1 - 1) 1)
    ((Matrix.of fun _ _ => (5 : ℚ)) : Latent (1 - 1) 1)

/-! ## Discrete latent pre-processing (export_rave.py, lines 127-131) -/

/-- Embedding of `torch.clamp(z, 0, n_codes - 1)` on one integer
index (entrywise clamp into [0, K-1]). -/
def clampIndex (K : ℕ) (x : ℤ) : ℤ := min (max x 0) ((K : ℤ) - 1)

/-- The clamped index as a valid codebook position of a non-empty
codebook. -/
def clampToFin (K : ℕ) (hK : 0 < K) (x : ℤ) : Fin K :=
  ⟨(clampIndex K x).toNat, by
    have h1 : clampIndex K x ≤ (K : ℤ) - 1 := min_le_right _ _
    have h2 : 0 ≤ clampIndex K x := le_min (le_max_right x 0) (by omega)
    omega⟩

/-- Modelled from the spec: `SimpleQuantizer.residual_dequantize`
(rave/scripted_vq.py, outside the exported source file); per the
specification of the residual quantizer, dequantization sums the
corresponding embedding rows across all stages, independently per
time frame.  `cb s i` is entry `i` of the stage-`s` codebook. -/
def residual_dequantize {nst K E T : ℕ} (cb : Fin nst → Fin K → Fin E → ℚ)
    (idx : Fin nst → Fin T → Fin K) : Fin E → Fin T → ℚ :=
  fun e t => ∑ s, cb s (idx s t) e

/-- Embedding of `DiscreteScriptedRAVE.pre_process_latent`: clamp the
incoming indices into [0, n_codes - 1], dequantize them, then apply
the external noise-smoothing primitive (`encoder.add_noise_to_vector`,
an abstract collaborator passed as `addNoise`). -/
def pre_process_latent_discrete {nst K E T : ℕ}
    (cb : Fin nst → Fin K → Fin E → ℚ)
    (addNoise : (Fin E → Fin T → ℚ) → (Fin E → Fin T → ℚ))
    (hK : 0 < K) (z : Fin nst → Fin T → ℤ) : Fin E → Fin T → ℚ :=
  addNoise (residual_dequantize cb (fun s t => clampToFin K hK (z s t)))

/-- Claim C7: the discrete pre-processing clamps every incoming index
into [0, n_codes - 1] before dequantization and never fails on
out-of-range indices (it is a total function); in particular an index
stream containing the value n_codes (one past the valid range) is
processed identically to the same stream with those entries replaced
by n_codes - 1. -/
theorem c7_clamping {nst K E T : ℕ} (cb : Fin nst → Fin K → Fin E → ℚ)
    (addNoise : (Fin E → Fin T → ℚ) → (Fin E → Fin T → ℚ))
    (hK : 0 < K) (z : Fin nst → Fin T → ℤ) :
    (∀ x : ℤ, 0 ≤ clampIndex K x ∧ clampIndex K x ≤ (K : ℤ) - 1) ∧
    pre_process_latent_discrete cb addNoise hK z =
      pre_process_latent_discrete cb addNoise hK
        (fun s t => if z s t = (K : ℤ) then (K : ℤ) - 1 else z s t) := by
  constructor
  · intro x
    exact ⟨le_min (le_max_right x 0) (by omega), min_le_right _ _⟩
  · unfold pre_process_latent_discrete
    have hidx : (fun s t => clampToFin K hK (z s t)) =
        (fun (s : Fin nst) (t : Fin T) =>
          clampToFin K hK (if z s t = (K : ℤ) then (K : ℤ) - 1 else z s t)) := by
      funext s t
      by_cases h : z s t = (K : ℤ)
      · apply Fin.ext
        simp only [clampToFin, h, if_pos]
        unfold clampIndex
        omega
      · rw [if_neg h]
    rw [hidx]

/-- Concrete stage-0 codebook for the claim C7 witness: two entries, 3
and 5, of dimension one. -/
def cexCb : Fin 1 → Fin 2 → Fin 1 → ℚ := fun _ i _ => if i = 0 then 3 else 5

/-- Concrete index stream for the claim C7 witness: the single entry
is 2 = n_codes, one past the valid range. -/
def cexIdxStream : Fin 1 → Fin 1 → ℤ := fun _ _ => 2

/-- Claim C7 witness: with a two-entry codebook, the range bound at
the concrete index 7 and the equal processing of the index stream
containing 2 = n_codes and of its clamped-down variant. -/
theorem c7_witness :
    (0 ≤ clampIndex 2 7 ∧ clampIndex 2 7 ≤ (2 : ℤ) - 1) ∧
    pre_process_latent_discrete cexCb id (by norm_num) cexIdxStream =
      pre_process_latent_discrete cexCb id (by norm_num)
        (fun s t => if cexIdxStream s t = ((2 : ℕ) : ℤ) then ((2 : ℕ) : ℤ) - 1
          else cexIdxStream s t) :=
  ⟨(c7_clamping cexCb id (by norm_num) cexIdxStream).1 7,
   (c7_clamping cexCb id (by norm_num) cexIdxStream).2⟩

/-! ## Metadata buffers (export_rave.py, lines 57-69) -/

/-- Embedding of `2 if stereo else 1`, the output channel count. -/
def stereo_channels (stereo : Bool) : ℕ := if stereo then 2 else 1

/-- Embedding of `ratio_encode = x.shape[-1] // z.shape[-1]`: the
probe sample count floor-divided by the latent frame count of the
probe encoding. -/
def ratio_encode (probeLen zFrames : ℕ) : ℕ := probeLen / zFrames

/-- Embedding of the `encode_params` buffer. -/
def encode_params (latent_size r : ℕ) : List ℕ := [1, 1, latent_size, r]

/-- Embedding of the `decode_params` buffer. -/
def decode_params (latent_size r : ℕ) (stereo : Bool) : List ℕ :=
  [latent_size, r, stereo_channels stereo, 1]

/-- Embedding of the `forward_params` buffer. -/
def forward_params (stereo : Bool) : List ℕ :=
  [1, 1, stereo_channels stereo, 1]

/-- Claim C8: the metadata vectors of the packaged artifact equal
exactly encode_params = [1, 1, D_kept, ratio],
decode_params = [D_kept, ratio, channels, 1] and
forward_params = [1, 1, channels, 1], where ratio is the probe sample
count 2^14 floor-divided by the latent frame count of the probe
encoding and channels is 2 if the stereo flag is set and 1 otherwise. -/
theorem c8_metadata (d zFrames : ℕ) (st : Bool) :
    encode_params d (ratio_encode (2 ^ 14) zFrames) =
      [1, 1, d, 2 ^ 14 / zFrames] ∧
    decode_params d (ratio_encode (2 ^ 14) zFrames) st =
      [d, 2 ^ 14 / zFrames, if st then 2 else 1, 1] ∧
    forward_params st = [1, 1, if st then 2 else 1, 1] := by
  refine ⟨rfl, ?_, ?_⟩ <;> cases st <;> rfl

/-! ## Export pipeline stages (export_rave.py, lines 141-191)

The script body is straight-line: checkpoint loading (lines 148-157),
encoder type inspection selecting the variational or discrete variant,
with a fatal error on unsupported types (159-167), warm-up pass
(171-172), weight-normalization removal (176-178), module
construction, scripting and saving (182-187), and the final check of
the scripted model (191). -/

/-- The observable stages of one export run. -/
inductive Stage
  | loaded
  | strategyBound
  | warmedUp
  | normalized
  | packaged
  | validated
deriving DecidableEq

/-- Successor stage in the straight-line export script, in source
order: the encoder-type inspection and variant selection (the action
the specification assigns to the StrategyBound state) happens directly
after loading, before the warm-up pass. -/
def nextStage : Stage → Option Stage
  | .loaded => some .strategyBound
  | .strategyBound => some .warmedUp
  | .warmedUp => some .normalized
  | .normalized => some .packaged
  | .packaged => some .validated
  | .validated => none

/-- The list of stages reached from `s` in at most `fuel` steps. -/
def traceFrom : ℕ → Stage → List Stage
  | 0, s => [s]
  | fuel + 1, s =>
    s :: (match nextStage s with
          | none => []
          | some s2 => traceFrom fuel s2)

/-- The stage trace of one export run. -/
def exportTrace : List Stage := traceFrom 5 Stage.loaded

/-- Claim C9 counterexample: the export trace does not pass through
the states in the order Loaded, WarmedUp, Normalized, StrategyBound,
Packaged, Validated; the strategy variant is selected by inspecting
the encoder type before the warm-up pass and the weight-normalization
removal, not after. -/
theorem c9_counterexample :
    exportTrace ≠ [Stage.loaded, Stage.warmedUp, Stage.normalized,
      Stage.strategyBound, Stage.packaged, Stage.validated] ∧
    exportTrace.indexOf Stage.strategyBound <
      exportTrace.indexOf Stage.warmedUp := by
  decide

/-- Claim C9 (amended): every export run passes through the pipeline
states in exactly the order Loaded, StrategyBound (encoder-type
inspection and variant selection), WarmedUp, Normalized, Packaged
(strategy-carrying module construction, ratio measurement, scripting
and saving), Validated, with strictly sequential transitions, each
state visited exactly once and no backward transitions. -/
theorem c9_amended :
    exportTrace = [Stage.loaded, Stage.strategyBound, Stage.warmedUp,
      Stage.normalized, Stage.packaged, Stage.validated] ∧
    exportTrace.Nodup := by
  decide
